import Mathlib

/-!
Verification development for the char_view library
(src/include/char_view.h of vpiotr/char_view).

Modelling conventions (shallow embedding):

* A code unit (`charT`) is a natural number; `0` models the terminator `'\0'`.
* A character buffer (a `const charT*`) is a `List ℕ` read through
  `cread l i = l.getD i 0`: memory beyond the modelled region reads as `0`,
  so every modelled buffer is eventually zero-terminated.  Any terminating
  run of the C functions inspects only finitely many cells, so this captures
  every zero-terminated C buffer (embedded `'\0'` cells inside the list
  included).
* Pointer arithmetic `p + 1` is `List.drop 1`.
* `size_t` is `ℕ`, with an explicit `% 2 ^ 64` wherever the C code can wrap;
  `ssize_t` is `ℤ`; `unsigned int` / `int` arithmetic is taken `% 2 ^ 32`
  (two's-complement wraparound semantics).
* The library defaults (`CV_DEF_RANGE_CHECK`, `CV_DEF_RANGE_ERR_THROWS`,
  `CV_DEF_RECURSIVE`) select `RangeCheckPolicyEnabled` together with
  `ErrorPolicyThrowing`; a thrown `std::runtime_error` from
  `signal_range_check_error` is modelled as `Option.none`.
-/

namespace sbt

/-- Read of a character buffer: `p[i]`.  Cells beyond the modelled region
read as the terminator `0`. -/
def cread (s : List ℕ) (i : ℕ) : ℕ := s.getD i 0

lemma cread_nil (i : ℕ) : cread [] i = 0 := by
  cases i <;> rfl

lemma cread_cons_zero (c : ℕ) (t : List ℕ) : cread (c :: t) 0 = c := rfl

lemma cread_cons_succ (c : ℕ) (t : List ℕ) (i : ℕ) : cread (c :: t) (i + 1) = cread t i := rfl

/-- Advancing the pointer commutes with reading: `(p + 1)[i] = p[i + 1]`. -/
lemma cread_drop_one (s : List ℕ) (i : ℕ) : cread (s.drop 1) i = cread s (i + 1) := by
  cases s with
  | nil => simp [cread_nil]
  | cons c t => rfl

/-- Conversion `(size_t)i` of a signed (`ssize_t`) value `i`:
reduction modulo `2 ^ 64`. -/
def size_t_of_int (i : ℤ) : ℕ := (i % (2 ^ 64 : ℤ)).toNat

/-- Conversion `(int)n` of a `size_t` value `n`: two's-complement truncation
to 32 bits (the `basic_char_view(const charT*, int)` constructor takes its
size as `int`). -/
def int_of_size_t (n : ℕ) : ℤ :=
  if n % 2 ^ 32 < 2 ^ 31 then (n % 2 ^ 32 : ℤ) else (n % 2 ^ 32 : ℤ) - 2 ^ 32

/-- `basic_char_view::npos`, declared `static const size_t npos = -1`. -/
def npos : ℕ := 2 ^ 64 - 1

namespace details

/-- Recursive `details::length`: `*str ? 1 + length(str + 1) : 0`. -/
def length : List ℕ → ℕ
  | [] => 0
  | c :: rest => if c = 0 then 0 else 1 + length rest

/-- Recursive `details::str_hash` (DJB variant):
`(limit == 0 || !str[pos]) ? 5381 : str[pos] ^ (33 * str_hash(str, pos+1, limit-1))`,
in `unsigned int` (32-bit wraparound) arithmetic.  The `size_t` argument
`limit` is the structural recursion argument. -/
def str_hash : List ℕ → ℕ → ℕ → ℕ
  | _, _, 0 => 5381
  | str, pos, limit + 1 =>
      if cread str pos = 0 then 5381
      else (cread str pos % 2 ^ 32) ^^^ ((33 * str_hash str (pos + 1) limit) % 2 ^ 32)

namespace no_inline

/-- First loop of `details::no_inline::str_hash_loop`:
`while ((limit != 0) && str[end_pos]) { ++end_pos; --limit; }`. -/
def scan_end : List ℕ → ℕ → ℕ → ℕ
  | _, end_pos, 0 => end_pos
  | str, end_pos, limit + 1 =>
      if cread str end_pos = 0 then end_pos else scan_end str (end_pos + 1) limit

/-- Second loop of `details::no_inline::str_hash_loop`:
`while (end_pos > pos) { --end_pos; result = str[end_pos] ^ (33 * result); }`,
in 32-bit wraparound arithmetic. -/
def hash_fold (str : List ℕ) (pos : ℕ) : ℕ → ℕ → ℕ
  | 0, result => result
  | e + 1, result =>
      if pos < e + 1 then
        hash_fold str pos e ((cread str e % 2 ^ 32) ^^^ ((33 * result) % 2 ^ 32))
      else result

/-- Iterative `details::no_inline::str_hash_loop`: scan forward to the end of
the hashed range, then fold backwards starting from `MAGIC_NUM = 5381`. -/
def str_hash_loop (str : List ℕ) (pos limit : ℕ) : ℕ :=
  hash_fold str pos (scan_end str pos limit) 5381

end no_inline

/-- The code units actually hashed, as the spec describes them: the code
units of `[pos, pos + limit)` that come before the first terminator. -/
def hash_input (str : List ℕ) (pos limit : ℕ) : List ℕ :=
  ((List.range limit).map fun i => cread str (pos + i)).takeWhile fun c => c ≠ 0

/-- The hash as the spec words it: accumulator initialized to `5381`, folded
as `acc = c XOR (33 * acc)` over the hashed code units processed in reverse
order of appearance, with 32-bit wraparound arithmetic. -/
def spec_hash (str : List ℕ) (pos limit : ℕ) : ℕ :=
  (hash_input str pos limit).foldr (fun c acc => (c % 2 ^ 32) ^^^ ((33 * acc) % 2 ^ 32)) 5381

end details

lemma scan_end_ge (str : List ℕ) :
    ∀ (limit end_pos : ℕ), end_pos ≤ details.no_inline.scan_end str end_pos limit := by
  intro limit
  induction limit with
  | zero => intro e; simp [details.no_inline.scan_end]
  | succ l ih =>
      intro e
      simp only [details.no_inline.scan_end]
      split
      · exact le_refl e
      · exact le_trans (Nat.le_succ e) (ih (e + 1))

lemma hash_fold_self (str : List ℕ) (pos r : ℕ) :
    details.no_inline.hash_fold str pos pos r = r := by
  cases pos with
  | zero => simp [details.no_inline.hash_fold]
  | succ p => simp [details.no_inline.hash_fold]

lemma hash_fold_step (str : List ℕ) (pos : ℕ) :
    ∀ (e : ℕ), pos + 1 ≤ e → ∀ (r : ℕ),
      details.no_inline.hash_fold str pos e r =
        (cread str pos % 2 ^ 32) ^^^
          ((33 * details.no_inline.hash_fold str (pos + 1) e r) % 2 ^ 32) := by
  intro e
  induction e with
  | zero => intro h; omega
  | succ e ih =>
      intro h r
      rcases Nat.lt_or_ge pos e with hlt | hge
      · have h1 : pos + 1 ≤ e := hlt
        simp only [details.no_inline.hash_fold, if_pos (Nat.lt_succ_of_lt hlt),
          if_pos (Nat.lt_succ_of_le h1)]
        exact ih h1 _
      · have he : e = pos := le_antisymm hge (by omega)
        subst he
        simp only [details.no_inline.hash_fold, if_pos (Nat.lt_succ_self e),
          Nat.lt_irrefl, if_false]
        rw [hash_fold_self]

lemma str_hash_loop_eq_str_hash (str : List ℕ) :
    ∀ (limit pos : ℕ),
      details.no_inline.str_hash_loop str pos limit = details.str_hash str pos limit := by
  intro limit
  induction limit with
  | zero =>
      intro pos
      simp [details.no_inline.str_hash_loop, details.no_inline.scan_end,
        details.str_hash, hash_fold_self]
  | succ l ih =>
      intro pos
      by_cases h : cread str pos = 0
      · simp [details.no_inline.str_hash_loop, details.no_inline.scan_end,
          details.str_hash, h, hash_fold_self]
      · have hscan : details.no_inline.scan_end str pos (l + 1) =
            details.no_inline.scan_end str (pos + 1) l := by
          simp [details.no_inline.scan_end, h]
        have hge : pos + 1 ≤ details.no_inline.scan_end str (pos + 1) l :=
          scan_end_ge str l (pos + 1)
        calc details.no_inline.str_hash_loop str pos (l + 1)
            = details.no_inline.hash_fold str pos
                (details.no_inline.scan_end str (pos + 1) l) 5381 := by
              simp [details.no_inline.str_hash_loop, hscan]
          _ = (cread str pos % 2 ^ 32) ^^^
                ((33 * details.no_inline.str_hash_loop str (pos + 1) l) % 2 ^ 32) := by
              rw [hash_fold_step str pos _ hge]
              rfl
          _ = (cread str pos % 2 ^ 32) ^^^
                ((33 * details.str_hash str (pos + 1) l) % 2 ^ 32) := by rw [ih]
          _ = details.str_hash str pos (l + 1) := by
              simp [details.str_hash, h]

lemma str_hash_eq_spec_hash (str : List ℕ) :
    ∀ (limit pos : ℕ), details.str_hash str pos limit = details.spec_hash str pos limit := by
  intro limit
  induction limit with
  | zero =>
      intro pos
      simp [details.str_hash, details.spec_hash, details.hash_input]
  | succ l ih =>
      intro pos
      by_cases h : cread str pos = 0
      · have hnil : details.hash_input str pos (l + 1) = [] := by
          simp only [details.hash_input, List.range_succ_eq_map, List.map_cons, Nat.add_zero]
          rw [List.takeWhile_cons]
          simp [h]
        simp [details.str_hash, details.spec_hash, hnil, h]
      · have hcons : details.hash_input str pos (l + 1) =
            cread str pos :: details.hash_input str (pos + 1) l := by
          simp only [details.hash_input, List.range_succ_eq_map, List.map_cons, Nat.add_zero,
            List.map_map]
          rw [List.takeWhile_cons]
          have hfun : ((fun i => cread str (pos + i)) ∘ Nat.succ) =
              fun i => cread str (pos + 1 + i) := by
            funext i
            simp only [Function.comp]
            congr 1
            omega
          simp [h, hfun]
        simp [details.str_hash, details.spec_hash, hcons, h, ih (pos + 1)]

/-- C7: the recursive compile-time hash `details::str_hash` and the iterative
runtime hash `details::no_inline::str_hash_loop` agree for every string and
every `(pos, limit)`, and both compute exactly the specified reverse-order
DJB fold: accumulator `5381`, `acc = c XOR (33 * acc)` over the code units
before `min(limit, first terminator)`, processed in reverse order of
appearance, with 32-bit wraparound arithmetic. -/
theorem str_hash_paths_agree (str : List ℕ) (pos limit : ℕ) :
    details.str_hash str pos limit = details.no_inline.str_hash_loop str pos limit ∧
      details.str_hash str pos limit = details.spec_hash str pos limit :=
  ⟨(str_hash_loop_eq_str_hash str limit pos).symm, str_hash_eq_spec_hash str limit pos⟩

namespace details

/-- Recursive `details::starts_with(content, search_text, content_limit, search_limit)`.
The structural recursion argument is `content_limit`; the `content_limit == 0`
branch of the source's conditional chain is the first match arm, the other
conditions appear in source order inside each arm. -/
def starts_with : List ℕ → List ℕ → ℕ → ℤ → Bool
  | _, search, 0, search_limit =>
      if search_limit = 0 then true
      else if search_limit < 0 then decide (cread search 0 = 0)
      else false
  | content, search, content_limit + 1, search_limit =>
      if search_limit = 0 then true
      else if cread content 0 ≠ cread search 0 then decide (cread search 0 = 0)
      else if cread content 0 = 0 then true
      else starts_with (content.drop 1) (search.drop 1) content_limit (search_limit - 1)

/-- Recursive `details::common_length(content, search_text, content_limit,
search_limit, match_len)`. -/
def common_length : List ℕ → List ℕ → ℕ → ℤ → ℕ → ℕ
  | _, _, 0, _, match_len => match_len
  | content, search, content_limit + 1, search_limit, match_len =>
      if search_limit = 0 then match_len
      else if cread content 0 ≠ cread search 0 then match_len
      else if cread content 0 = 0 then match_len
      else common_length (content.drop 1) (search.drop 1) content_limit (search_limit - 1)
        (match_len + 1)

/-- Recursive `details::compare(content, search_text, content_limit, search_limit)`.
The `content_limit == 0` match arm merges the source's
`search_limit == 0 → (content_limit == 0 ? 0 : 1)` and
`content_limit == 0 → (!search_text[0] ? 0 : -1)` branches; the
`content_limit + 1` arm keeps the remaining conditions in source order. -/
def compare : List ℕ → List ℕ → ℕ → ℤ → ℤ
  | _, search, 0, search_limit =>
      if search_limit = 0 then 0
      else if cread search 0 = 0 then 0
      else -1
  | content, search, content_limit + 1, search_limit =>
      if search_limit = 0 then 1
      else if cread search 0 < cread content 0 then 1
      else if cread content 0 < cread search 0 then -1
      else if cread content 0 = 0 then 0
      else compare (content.drop 1) (search.drop 1) content_limit (search_limit - 1)

/-- Recursive `details::contains(content, search_text, content_limit, search_limit)`;
at `content_limit == 0` the source's two leading guards collapse to
`search_limit == 0`. -/
def contains : List ℕ → List ℕ → ℕ → ℕ → Bool
  | _, _, 0, search_limit => decide (search_limit = 0)
  | content, search, content_limit + 1, search_limit =>
      if content_limit + 1 < search_limit then false
      else if compare content search search_limit (search_limit : ℤ) = 0 then true
      else contains (content.drop 1) search content_limit search_limit

/-- Recursive `details::index_of(content, search_text, content_limit,
search_limit, offset)`; note the source matches with
`starts_with(content, search_text, search_limit, search_limit)` while
`contains` uses `compare`. -/
def index_of : List ℕ → List ℕ → ℕ → ℕ → ℕ → ℤ
  | _, _, 0, search_limit, offset => if search_limit = 0 then (offset : ℤ) else -1
  | content, search, content_limit + 1, search_limit, offset =>
      if content_limit + 1 < search_limit then -1
      else if starts_with content search search_limit (search_limit : ℤ) then (offset : ℤ)
      else index_of (content.drop 1) search content_limit search_limit (offset + 1)

/-- Recursive `details::index_of_any(content, search_set, content_limit,
search_limit, offset)`. -/
def index_of_any : List ℕ → List ℕ → ℕ → ℕ → ℕ → ℤ
  | _, _, 0, _, _ => -1
  | content, search_set, content_limit + 1, search_limit, offset =>
      if search_limit = 0 then -1
      else if 0 ≤ index_of search_set content search_limit 1 0 then (offset : ℤ)
      else index_of_any (content.drop 1) search_set content_limit search_limit (offset + 1)

/-- Recursive `details::index_of_nonmatching(content, search_set,
content_limit, search_limit, offset)`. -/
def index_of_nonmatching : List ℕ → List ℕ → ℕ → ℕ → ℕ → ℤ
  | _, _, 0, search_limit, offset => if search_limit = 0 then (offset : ℤ) else -1
  | content, search_set, content_limit + 1, search_limit, offset =>
      if index_of search_set content search_limit 1 0 < 0 then (offset : ℤ)
      else index_of_nonmatching (content.drop 1) search_set content_limit search_limit
        (offset + 1)

/-- Recursive `details::last_index_of(content, search_text, content_limit,
search_limit, offset, found_pos)`; at `content_limit == 0` the source's
guards collapse to `search_limit == 0 ? offset : found_pos`. -/
def last_index_of : List ℕ → List ℕ → ℕ → ℕ → ℕ → ℤ → ℤ
  | _, _, 0, search_limit, offset, found_pos =>
      if search_limit = 0 then (offset : ℤ) else found_pos
  | content, search, content_limit + 1, search_limit, offset, found_pos =>
      if content_limit + 1 < search_limit then found_pos
      else if compare content search search_limit (search_limit : ℤ) = 0 then
        last_index_of (content.drop 1) search content_limit search_limit (offset + 1)
          (offset : ℤ)
      else
        last_index_of (content.drop 1) search content_limit search_limit (offset + 1) found_pos

/-- Recursive `details::last_index_of_any(content, search_set, content_limit,
search_limit, offset, found_pos)`. -/
def last_index_of_any : List ℕ → List ℕ → ℕ → ℕ → ℕ → ℤ → ℤ
  | _, _, 0, search_limit, _, found_pos =>
      if search_limit = 0 then -1 else found_pos
  | content, search_set, content_limit + 1, search_limit, offset, found_pos =>
      if 0 ≤ index_of search_set content search_limit 1 0 then
        last_index_of_any (content.drop 1) search_set content_limit search_limit (offset + 1)
          (offset : ℤ)
      else
        last_index_of_any (content.drop 1) search_set content_limit search_limit (offset + 1)
          found_pos

/-- Recursive `details::last_index_of_nonmatching(content, search_set,
content_limit, search_limit, offset, found_pos)`. -/
def last_index_of_nonmatching : List ℕ → List ℕ → ℕ → ℕ → ℕ → ℤ → ℤ
  | _, _, 0, search_limit, offset, found_pos =>
      if search_limit = 0 then (offset : ℤ) else found_pos
  | content, search_set, content_limit + 1, search_limit, offset, found_pos =>
      if index_of search_set content search_limit 1 0 < 0 then
        last_index_of_nonmatching (content.drop 1) search_set content_limit search_limit
          (offset + 1) (offset : ℤ)
      else
        last_index_of_nonmatching (content.drop 1) search_set content_limit search_limit
          (offset + 1) found_pos

end details

/-- The sequence of code units a `std::basic_string<charT>(p, n)` constructor
copies: exactly `n` cells starting at `p`. -/
def read_buf (s : List ℕ) (n : ℕ) : List ℕ := (List.range n).map fun i => cread s i

/-- `basic_char_view<charT, RecursivePolicy, RangeCheckPolicyEnabled,
ErrorPolicyThrowing>` (the library's default policy configuration): a borrowed
buffer `m_str` and a length `m_size`. -/
structure basic_char_view where
  m_str : List ℕ
  m_size : ℕ
deriving DecidableEq

namespace basic_char_view

/-- `operator[]`: under `RangeCheckPolicyEnabled` plus `ErrorPolicyThrowing`,
`index >= m_size` throws (`none`); otherwise the code unit is returned. -/
def index_op (v : basic_char_view) (index : ℕ) : Option ℕ :=
  if v.m_size ≤ index then none else some (cread v.m_str index)

/-- `at(index)`: defined by the source as `(*this)[index]`. -/
def at_pos (v : basic_char_view) (index : ℕ) : Option ℕ :=
  v.index_op index

/-- Single-character `front()`: `(*this)[0]`. -/
def front_ch (v : basic_char_view) : Option ℕ :=
  v.index_op 0

/-- Single-character `back()`: throws when empty, else `(*this)[m_size - 1]`. -/
def back_ch (v : basic_char_view) : Option ℕ :=
  if v.m_size = 0 then none else v.index_op (v.m_size - 1)

/-- `substr(index, len = npos)`: out-of-bounds `index` throws; otherwise the
view `(m_str + index, (index + len <= m_size) ? len : m_size - index)`, where
`index + len` is `size_t` (mod `2 ^ 64`) addition and the chosen length is
passed through the `(const charT*, int)` constructor. -/
def substr (v : basic_char_view) (index len : ℕ) : Option basic_char_view :=
  if v.m_size ≤ index then none
  else some ⟨v.m_str.drop index,
    size_t_of_int (int_of_size_t
      (if (index + len) % 2 ^ 64 ≤ v.m_size then len else v.m_size - index))⟩

/-- n-length `front(a_len)`: `substr(0, (a_len <= m_size) ? a_len : m_size)`. -/
def front_n (v : basic_char_view) (a_len : ℕ) : Option basic_char_view :=
  v.substr 0 (if a_len ≤ v.m_size then a_len else v.m_size)

/-- n-length `back(a_len)`: `(a_len == 0) ? this_type("") :
(a_len <= m_size) ? substr(m_size - a_len, a_len) : substr(0, m_size)`. -/
def back_n (v : basic_char_view) (a_len : ℕ) : Option basic_char_view :=
  if a_len = 0 then some ⟨[], 0⟩
  else if a_len ≤ v.m_size then v.substr (v.m_size - a_len) a_len
  else v.substr 0 v.m_size

/-- `starts_with(const charT*, size_t, RecursivePolicyEnabled)`:
`details::starts_with(m_str, a_str, m_size, a_len)` (the `size_t` length is
converted to the `ssize_t` parameter). -/
def starts_with_len_rec (v : basic_char_view) (a_str : List ℕ) (a_len : ℕ) : Bool :=
  details.starts_with v.m_str a_str v.m_size (a_len : ℤ)

/-- `starts_with(const charT*, size_t, RecursivePolicyDisabled)`:
`std::basic_string<charT> str(a_str, std::min(a_len, m_size));
return (str == std::basic_string<charT>(m_str, m_size));`. -/
def starts_with_len_iter (v : basic_char_view) (a_str : List ℕ) (a_len : ℕ) : Bool :=
  decide (read_buf a_str (min a_len v.m_size) = read_buf v.m_str v.m_size)

end basic_char_view

/-- C1: the two policy implementations of `starts_with(const charT*, size_t)`
disagree: on the view `"Abcdefg"` (size 7) with needle `("Abcd", 4)` the
recursive (`RecursivePolicyEnabled`) overload returns `true` while the
iterative (`RecursivePolicyDisabled`) overload returns `false`, because the
latter compares the truncated needle with the whole view instead of with the
view's prefix. -/
theorem starts_with_dual_policy_bug :
    basic_char_view.starts_with_len_rec ⟨[65, 98, 99, 100, 101, 102, 103], 7⟩
        [65, 98, 99, 100] 4 = true ∧
      basic_char_view.starts_with_len_iter ⟨[65, 98, 99, 100, 101, 102, 103], 7⟩
        [65, 98, 99, 100] 4 = false := by
  decide

/-- C2: `substr(start)` with the length argument omitted (`len = npos`) does
not clamp: on the view `"Abcdefg"` (size 7), `substr(1)` yields a view whose
length is `npos = 2 ^ 64 - 1`, not the remaining length 6, because
`index + npos` wraps modulo `2 ^ 64` to `index - 1 ≤ m_size`, skipping the
clamping branch. -/
theorem substr_default_len_bug :
    basic_char_view.substr ⟨[65, 98, 99, 100, 101, 102, 103], 7⟩ 1 npos
        = some ⟨[98, 99, 100, 101, 102, 103], npos⟩ ∧
      npos ≠ 7 - 1 := by
  constructor
  · decide
  · decide

/-- C5: the n-length `front`/`back` forms DO signal a range error on the empty
view (the inner `substr(0, _)` bounds check `0 >= m_size` fires), contrary to
the claim that they clamp for every view including the empty one; on a
non-empty view they do clamp as claimed. -/
theorem front_back_empty_view_bug :
    basic_char_view.front_n ⟨[], 0⟩ 1 = none ∧
      basic_char_view.back_n ⟨[], 0⟩ 1 = none ∧
      basic_char_view.front_n ⟨[], 0⟩ 0 = none ∧
      basic_char_view.front_n ⟨[97], 1⟩ 5 = some ⟨[97], 1⟩ ∧
      basic_char_view.back_n ⟨[97], 1⟩ 5 = some ⟨[97], 1⟩ := by
  refine ⟨?_, ?_, ?_, ?_, ?_⟩ <;> decide

/-- C8: under the default range-check-enabled raise-on-error configuration,
`operator[]`/`at` with `index >= size`, `front()`/`back()` on an empty view
and `substr` with an out-of-bounds start all raise (`none`), and `operator[]`
with `index < size` returns the code unit at that index without error. -/
theorem range_check_raise_policy (v : basic_char_view) (i len : ℕ) :
    (v.m_size ≤ i →
      v.index_op i = none ∧ v.at_pos i = none ∧ v.substr i len = none) ∧
    (i < v.m_size → v.index_op i = some (cread v.m_str i)) ∧
    (v.m_size = 0 → v.front_ch = none ∧ v.back_ch = none) := by
  refine ⟨fun h => ⟨?_, ?_, ?_⟩, fun h => ?_, fun h => ⟨?_, ?_⟩⟩
  · simp [basic_char_view.index_op, h]
  · simp [basic_char_view.at_pos, basic_char_view.index_op, h]
  · simp [basic_char_view.substr, h]
  · simp [basic_char_view.index_op, Nat.not_le_of_lt h]
  · simp [basic_char_view.front_ch, basic_char_view.index_op, h]
  · simp [basic_char_view.back_ch, h]

/-- Witness for C8 at concrete inputs. -/
theorem range_check_raise_policy_witness :
    basic_char_view.index_op ⟨[65, 66], 2⟩ 2 = none ∧
      basic_char_view.at_pos ⟨[65, 66], 2⟩ 2 = none ∧
      basic_char_view.substr ⟨[65, 66], 2⟩ 2 0 = none ∧
      basic_char_view.index_op ⟨[65, 66], 2⟩ 1 = some 66 ∧
      basic_char_view.front_ch ⟨[], 0⟩ = none ∧
      basic_char_view.back_ch ⟨[], 0⟩ = none :=
  ⟨((range_check_raise_policy ⟨[65, 66], 2⟩ 2 0).1 (by decide)).1,
    ((range_check_raise_policy ⟨[65, 66], 2⟩ 2 0).1 (by decide)).2.1,
    ((range_check_raise_policy ⟨[65, 66], 2⟩ 2 0).1 (by decide)).2.2,
    (range_check_raise_policy ⟨[65, 66], 2⟩ 1 0).2.1 (by decide),
    ((range_check_raise_policy ⟨[], 0⟩ 0 0).2.2 (by decide)).1,
    ((range_check_raise_policy ⟨[], 0⟩ 0 0).2.2 (by decide)).2⟩

/-- `compare(const this_type&)`:
`details::compare(m_str, a_str.m_str, m_size, a_str.m_size)`. -/
def basic_char_view.compare_view (v a : basic_char_view) : ℤ :=
  details.compare v.m_str a.m_str v.m_size (a.m_size : ℤ)

lemma compare_antisym_aux :
    ∀ (la : ℕ) (a b : List ℕ) (lb : ℕ),
      (∀ i, i < la → cread a i ≠ 0) → (∀ i, i < lb → cread b i ≠ 0) →
      Int.sign (details.compare a b la (lb : ℤ)) =
        -Int.sign (details.compare b a lb (la : ℤ)) := by
  intro la
  induction la with
  | zero =>
      intro a b lb ha hb
      cases lb with
      | zero => simp [details.compare]
      | succ m =>
          have hb0 : cread b 0 ≠ 0 := hb 0 (Nat.succ_pos m)
          have hm : ((m + 1 : ℕ) : ℤ) ≠ 0 := by exact_mod_cast Nat.succ_ne_zero m
          rw [show details.compare a b 0 ((m + 1 : ℕ) : ℤ) = -1 from by
                simp only [details.compare, if_neg hm, if_neg hb0],
              show details.compare b a (m + 1) ((0 : ℕ) : ℤ) = 1 from by
                simp [details.compare]]
          decide
  | succ n ih =>
      intro a b lb ha hb
      have ha0 : cread a 0 ≠ 0 := ha 0 (Nat.succ_pos n)
      have hn : ((n + 1 : ℕ) : ℤ) ≠ 0 := by exact_mod_cast Nat.succ_ne_zero n
      cases lb with
      | zero =>
          rw [show details.compare a b (n + 1) ((0 : ℕ) : ℤ) = 1 from by
                simp [details.compare],
              show details.compare b a 0 ((n + 1 : ℕ) : ℤ) = -1 from by
                simp only [details.compare, if_neg hn, if_neg ha0]]
          decide
      | succ m =>
          have hb0 : cread b 0 ≠ 0 := hb 0 (Nat.succ_pos m)
          have hm : ((m + 1 : ℕ) : ℤ) ≠ 0 := by exact_mod_cast Nat.succ_ne_zero m
          rcases lt_trichotomy (cread a 0) (cread b 0) with hab | hab | hab
          · rw [show details.compare a b (n + 1) ((m + 1 : ℕ) : ℤ) = -1 from by
                  simp only [details.compare, if_neg hm, if_neg (Nat.lt_asymm hab),
                    if_pos hab],
                show details.compare b a (m + 1) ((n + 1 : ℕ) : ℤ) = 1 from by
                  simp only [details.compare, if_neg hn, if_pos hab]]
            decide
          · have hrec := ih (a.drop 1) (b.drop 1) m
              (fun i hi => by rw [cread_drop_one]; exact ha (i + 1) (by omega))
              (fun i hi => by rw [cread_drop_one]; exact hb (i + 1) (by omega))
            have hcast1 : ((m + 1 : ℕ) : ℤ) - 1 = (m : ℤ) := by push_cast; ring
            have hcast2 : ((n + 1 : ℕ) : ℤ) - 1 = (n : ℤ) := by push_cast; ring
            simp only [details.compare, if_neg hm, if_neg hn, hab, lt_irrefl, if_false,
              if_neg hb0, hcast1, hcast2]
            exact hrec
          · rw [show details.compare a b (n + 1) ((m + 1 : ℕ) : ℤ) = 1 from by
                  simp only [details.compare, if_neg hm, if_pos hab],
                show details.compare b a (m + 1) ((n + 1 : ℕ) : ℤ) = -1 from by
                  simp only [details.compare, if_neg hn, if_neg (Nat.lt_asymm hab),
                    if_pos hab]]
            decide

/-- C3 counterexample: with embedded NUL code units, `compare` is not
antisymmetric: for the empty view `a` and the view `b` over the single NUL
code unit, `sign(a.compare(b)) = 0` while `-sign(b.compare(a)) = -1`. -/
theorem compare_antisym_counterexample :
    Int.sign (basic_char_view.compare_view ⟨[], 0⟩ ⟨[0], 1⟩) ≠
      -Int.sign (basic_char_view.compare_view ⟨[0], 1⟩ ⟨[], 0⟩) := by
  decide

/-- C3 (amended): `compare` is antisymmetric on views free of embedded NUL
code units: for all views `a`, `b` whose code units within their sizes are
nonzero, `sign(a.compare(b)) = -sign(b.compare(a))`. -/
theorem compare_antisym_nul_free (a b : basic_char_view)
    (ha : ∀ i, i < a.m_size → cread a.m_str i ≠ 0)
    (hb : ∀ i, i < b.m_size → cread b.m_str i ≠ 0) :
    Int.sign (a.compare_view b) = -Int.sign (b.compare_view a) :=
  compare_antisym_aux a.m_size a.m_str b.m_str b.m_size ha hb

/-- Witness for C3 (amended) at concrete NUL-free views `"ab"` and `"a"`. -/
theorem compare_antisym_nul_free_witness :
    Int.sign (basic_char_view.compare_view ⟨[97, 98], 2⟩ ⟨[97], 1⟩) =
      -Int.sign (basic_char_view.compare_view ⟨[97], 1⟩ ⟨[97, 98], 2⟩) :=
  compare_antisym_nul_free ⟨[97, 98], 2⟩ ⟨[97], 1⟩ (by decide) (by decide)

/-- `equals(const charT*, RecursivePolicyEnabled)`:
`(details::common_length(m_str, a_str, m_size, -1) == m_size) && (a_str[m_size] == '\0')`. -/
def basic_char_view.equals_z (v : basic_char_view) (a_str : List ℕ) : Bool :=
  decide (details.common_length v.m_str a_str v.m_size (-1) 0 = v.m_size) &&
    decide (cread a_str v.m_size = 0)

/-- `compare(const charT*, RecursivePolicyEnabled)`:
`details::compare(m_str, a_str, m_size)` with the default `search_limit = -1`. -/
def basic_char_view.compare_z (v : basic_char_view) (a_str : List ℕ) : ℤ :=
  details.compare v.m_str a_str v.m_size (-1)

/-- `operator==(const basic_char_view&, const char*)`: `ltr.equals(rtr)`. -/
def basic_char_view.eq_z (v : basic_char_view) (x : List ℕ) : Bool :=
  v.equals_z x

/-- `operator!=(const basic_char_view&, const char*)`: `ltr.compare(rtr) != 0`. -/
def basic_char_view.ne_z (v : basic_char_view) (x : List ℕ) : Bool :=
  decide (v.compare_z x ≠ 0)

lemma common_length_acc :
    ∀ (cl : ℕ) (c s : List ℕ) (sl : ℤ) (ml : ℕ),
      details.common_length c s cl sl ml = ml + details.common_length c s cl sl 0 := by
  intro cl
  induction cl with
  | zero => intro c s sl ml; simp [details.common_length]
  | succ n ih =>
      intro c s sl ml
      simp only [details.common_length]
      split_ifs
      · simp
      · simp
      · simp
      · rw [ih _ _ _ (ml + 1), ih _ _ _ (0 + 1)]
        omega

lemma equals_iff_compare_zero_aux :
    ∀ (cl : ℕ) (c x : List ℕ) (sl : ℤ), sl < 0 →
      (∀ i, i < cl → cread c i ≠ 0) →
      ((details.common_length c x cl sl 0 = cl ∧ cread x cl = 0) ↔
        details.compare c x cl sl = 0) := by
  intro cl
  induction cl with
  | zero =>
      intro c x sl hsl hc
      have hsl0 : sl ≠ 0 := by omega
      constructor
      · rintro ⟨-, hx⟩
        simp only [details.compare, if_neg hsl0, if_pos hx]
      · intro h
        refine ⟨by simp [details.common_length], ?_⟩
        by_contra hx
        simp only [details.compare, if_neg hsl0, if_neg hx] at h
        exact absurd h (by decide)
  | succ n ih =>
      intro c x sl hsl hc
      have hsl0 : sl ≠ 0 := by omega
      have hc0 : cread c 0 ≠ 0 := hc 0 (Nat.succ_pos n)
      rcases lt_trichotomy (cread c 0) (cread x 0) with h | h | h
      · have hcl : details.common_length c x (n + 1) sl 0 = 0 := by
          simp only [details.common_length, if_neg hsl0, if_pos (Nat.ne_of_lt h)]
        have hcmp : details.compare c x (n + 1) sl = -1 := by
          simp only [details.compare, if_neg hsl0, if_neg (Nat.lt_asymm h), if_pos h]
        rw [hcl, hcmp]
        simp
      · have hnn : ¬ (cread c 0 ≠ cread x 0) := by simp [h]
        have h1 : details.common_length c x (n + 1) sl 0 =
            1 + details.common_length (c.drop 1) (x.drop 1) n (sl - 1) 0 := by
          simp only [details.common_length, if_neg hsl0, if_neg hnn, if_neg hc0,
            Nat.zero_add]
          exact common_length_acc n (c.drop 1) (x.drop 1) (sl - 1) 1
        have h2 : details.compare c x (n + 1) sl =
            details.compare (c.drop 1) (x.drop 1) n (sl - 1) := by
          simp only [details.compare, if_neg hsl0,
            if_neg (show ¬ cread x 0 < cread c 0 by rw [h]; exact lt_irrefl _),
            if_neg (show ¬ cread c 0 < cread x 0 by rw [h]; exact lt_irrefl _),
            if_neg hc0]
        have hx : cread x (n + 1) = cread (x.drop 1) n := (cread_drop_one x n).symm
        have hrec := ih (c.drop 1) (x.drop 1) (sl - 1) (by omega)
          (fun i hi => by rw [cread_drop_one]; exact hc (i + 1) (by omega))
        rw [h1, h2, hx]
        constructor
        · rintro ⟨hl, hr⟩
          exact hrec.mp ⟨by omega, hr⟩
        · intro hcmp
          obtain ⟨hl, hr⟩ := hrec.mpr hcmp
          exact ⟨by omega, hr⟩
      · have hcl : details.common_length c x (n + 1) sl 0 = 0 := by
          simp only [details.common_length, if_neg hsl0, if_pos (Nat.ne_of_gt h)]
        have hcmp : details.compare c x (n + 1) sl = 1 := by
          simp only [details.compare, if_neg hsl0, if_pos h]
        rw [hcl, hcmp]
        simp

lemma eq_z_iff_compare_z (v : basic_char_view) (x : List ℕ)
    (hv : ∀ i, i < v.m_size → cread v.m_str i ≠ 0) :
    v.eq_z x = true ↔ v.compare_z x = 0 := by
  have h := equals_iff_compare_zero_aux v.m_size v.m_str x (-1) (by decide) hv
  simp only [basic_char_view.eq_z, basic_char_view.equals_z, basic_char_view.compare_z,
    Bool.and_eq_true, decide_eq_true_eq]
  exact h

/-- C10 counterexample: for the view over `['a', '\0']` (size 2) and the
zero-terminated string `"a"`, both `operator==` (via `equals`) and
`operator!=` (via `compare != 0`) evaluate to `false`. -/
theorem eq_ne_both_false_counterexample :
    basic_char_view.eq_z ⟨[97, 0], 2⟩ [97] = false ∧
      basic_char_view.ne_z ⟨[97, 0], 2⟩ [97] = false := by
  decide

/-- C10 (amended): for every view whose code units within its size are
non-NUL and every zero-terminated string, exactly one of `v == x`
(`operator==`, defined via `equals`) and `v != x` (`operator!=`, defined via
`compare`) holds. -/
theorem eq_ne_partition_nul_free (v : basic_char_view) (x : List ℕ)
    (hv : ∀ i, i < v.m_size → cread v.m_str i ≠ 0) :
    (v.eq_z x = true) ↔ ¬ (v.ne_z x = true) := by
  rw [eq_z_iff_compare_z v x hv]
  simp [basic_char_view.ne_z]

/-- Witness for C10 (amended) at the view `"a"` and the string `"a"`. -/
theorem eq_ne_partition_nul_free_witness :
    (basic_char_view.eq_z ⟨[97], 1⟩ [97] = true) ↔
      ¬ (basic_char_view.ne_z ⟨[97], 1⟩ [97] = true) :=
  eq_ne_partition_nul_free ⟨[97], 1⟩ [97] (by decide)

/-- `contains(const charT*, size_t, RecursivePolicyEnabled)`:
`details::contains(m_str, a_str, m_size, a_len)`. -/
def basic_char_view.contains_cn (v : basic_char_view) (a_str : List ℕ) (a_len : ℕ) : Bool :=
  details.contains v.m_str a_str v.m_size a_len

/-- `find_cn(const charT*, size_t)` under `RecursivePolicyEnabled`:
`details::index_of(m_str, a_str, m_size, a_len)`, whose `ssize_t` result
(`-1` when absent) is converted to the `size_t` return type. -/
def basic_char_view.find_cn (v : basic_char_view) (a_str : List ℕ) (a_len : ℕ) : ℕ :=
  size_t_of_int (details.index_of v.m_str a_str v.m_size a_len 0)

/-- `contains(const this_type&, RecursivePolicyEnabled)`:
`details::contains(m_str, a_str.m_str, m_size, a_str.m_size)`. -/
def basic_char_view.contains_view (v a : basic_char_view) : Bool :=
  details.contains v.m_str a.m_str v.m_size a.m_size

/-- `find(const this_type&, RecursivePolicyEnabled)`:
`details::index_of(m_str, a_str.m_str, m_size, a_str.m_size)`, converted to
`size_t`. -/
def basic_char_view.find_view (v a : basic_char_view) : ℕ :=
  size_t_of_int (details.index_of v.m_str a.m_str v.m_size a.m_size 0)

lemma starts_with_iff_compare_aux :
    ∀ (n : ℕ) (c s : List ℕ),
      (∀ i, i < n → cread s i ≠ 0) →
      (details.starts_with c s n (n : ℤ) = true ↔ details.compare c s n (n : ℤ) = 0) := by
  intro n
  induction n with
  | zero => intro c s _; simp [details.starts_with, details.compare]
  | succ m ih =>
      intro c s hs
      have hm : ((m + 1 : ℕ) : ℤ) ≠ 0 := by exact_mod_cast Nat.succ_ne_zero m
      have hs0 : cread s 0 ≠ 0 := hs 0 (Nat.succ_pos m)
      have hcast : ((m + 1 : ℕ) : ℤ) - 1 = (m : ℤ) := by push_cast; ring
      rcases eq_or_ne (cread c 0) (cread s 0) with h | h
      · have hc0 : cread c 0 ≠ 0 := by rw [h]; exact hs0
        have h1 : details.starts_with c s (m + 1) ((m + 1 : ℕ) : ℤ) =
            details.starts_with (c.drop 1) (s.drop 1) m ((m : ℕ) : ℤ) := by
          simp only [details.starts_with, if_neg hm,
            if_neg (show ¬ (cread c 0 ≠ cread s 0) by simp [h]), if_neg hc0, hcast]
        have h2 : details.compare c s (m + 1) ((m + 1 : ℕ) : ℤ) =
            details.compare (c.drop 1) (s.drop 1) m ((m : ℕ) : ℤ) := by
          simp only [details.compare, if_neg hm,
            if_neg (show ¬ cread s 0 < cread c 0 by rw [h]; exact lt_irrefl _),
            if_neg (show ¬ cread c 0 < cread s 0 by rw [h]; exact lt_irrefl _),
            if_neg hc0, hcast]
        rw [h1, h2]
        exact ih (c.drop 1) (s.drop 1)
          (fun i hi => by rw [cread_drop_one]; exact hs (i + 1) (by omega))
      · have h1 : details.starts_with c s (m + 1) ((m + 1 : ℕ) : ℤ) = false := by
          simp only [details.starts_with, if_neg hm, if_pos h]
          simp [hs0]
        rcases lt_or_gt_of_ne h with hlt | hgt
        · have h2 : details.compare c s (m + 1) ((m + 1 : ℕ) : ℤ) = -1 := by
            simp only [details.compare, if_neg hm, if_neg (Nat.lt_asymm hlt), if_pos hlt]
          rw [h1, h2]
          simp
        · have h2 : details.compare c s (m + 1) ((m + 1 : ℕ) : ℤ) = 1 := by
            simp only [details.compare, if_neg hm, if_pos hgt]
          rw [h1, h2]
          simp

lemma index_of_empty_needle (cl : ℕ) (c s : List ℕ) (off : ℕ) :
    details.index_of c s cl 0 off = (off : ℤ) := by
  cases cl with
  | zero => simp [details.index_of]
  | succ n => simp [details.index_of, details.starts_with]

lemma contains_empty_needle (cl : ℕ) (c s : List ℕ) :
    details.contains c s cl 0 = true := by
  cases cl with
  | zero => simp [details.contains]
  | succ n => simp [details.contains, details.compare]

lemma contains_iff_index_of_aux :
    ∀ (cl : ℕ) (c s : List ℕ) (sl off : ℕ),
      (∀ i, i < sl → cread s i ≠ 0) →
      (details.contains c s cl sl = true ↔ details.index_of c s cl sl off ≠ -1) := by
  intro cl
  induction cl with
  | zero =>
      intro c s sl off _
      rcases Nat.eq_zero_or_pos sl with h | h
      · subst h
        rw [contains_empty_needle 0 c s, index_of_empty_needle 0 c s off]
        constructor
        · intro _ hcontra
          omega
        · intro _
          rfl
      · have hne : sl ≠ 0 := by omega
        simp [details.contains, details.index_of, hne]
  | succ n ih =>
      intro c s sl off hs
      by_cases hguard : n + 1 < sl
      · simp [details.contains, details.index_of, hguard]
      · have hsc := starts_with_iff_compare_aux sl c s hs
        by_cases hmatch : details.compare c s sl (sl : ℤ) = 0
        · have hsw : details.starts_with c s sl (sl : ℤ) = true := hsc.mpr hmatch
          rw [show details.contains c s (n + 1) sl = true from by
                simp [details.contains, hguard, hmatch],
              show details.index_of c s (n + 1) sl off = (off : ℤ) from by
                simp [details.index_of, hguard, hsw]]
          constructor
          · intro _ hcontra
            omega
          · intro _
            rfl
        · have hsw : details.starts_with c s sl (sl : ℤ) = false := by
            rw [← Bool.not_eq_true]
            exact fun hh => hmatch (hsc.mp hh)
          rw [show details.contains c s (n + 1) sl = details.contains (c.drop 1) s n sl from by
                simp [details.contains, hguard, hmatch],
              show details.index_of c s (n + 1) sl off =
                  details.index_of (c.drop 1) s n sl (off + 1) from by
                simp [details.index_of, hguard, hsw]]
          exact ih (c.drop 1) s sl (off + 1) hs

lemma index_of_bound :
    ∀ (cl : ℕ) (c s : List ℕ) (sl off : ℕ),
      details.index_of c s cl sl off = -1 ∨
        ((off : ℤ) ≤ details.index_of c s cl sl off ∧
          details.index_of c s cl sl off + (sl : ℤ) ≤ (off : ℤ) + (cl : ℤ)) := by
  intro cl
  induction cl with
  | zero =>
      intro c s sl off
      by_cases h : sl = 0
      · subst h
        right
        rw [index_of_empty_needle 0 c s off]
        constructor
        · omega
        · push_cast
          omega
      · left
        simp [details.index_of, h]
  | succ n ih =>
      intro c s sl off
      by_cases hguard : n + 1 < sl
      · left
        simp [details.index_of, hguard]
      · by_cases hsw : details.starts_with c s sl (sl : ℤ) = true
        · right
          rw [show details.index_of c s (n + 1) sl off = (off : ℤ) from by
                simp [details.index_of, hguard, hsw]]
          constructor
          · omega
          · push_cast
            omega
        · have hsw' : details.starts_with c s sl (sl : ℤ) = false := by
            rw [← Bool.not_eq_true]
            exact hsw
          rw [show details.index_of c s (n + 1) sl off =
                details.index_of (c.drop 1) s n sl (off + 1) from by
              simp [details.index_of, hguard, hsw']]
          rcases ih (c.drop 1) s sl (off + 1) with h | ⟨h1, h2⟩
          · exact Or.inl h
          · refine Or.inr ⟨by push_cast at h1 ⊢; omega, by push_cast at h2 ⊢; omega⟩

/-- C4 counterexample: for the haystack view `"xy"` and a needle with an
embedded NUL (`['x', '\0']`, length 2), `contains` (which matches with
`details::compare`) returns `false` while `find` (which matches with
`details::starts_with`) returns position `0 ≠ npos`. -/
theorem contains_find_counterexample :
    basic_char_view.contains_view ⟨[120, 121], 2⟩ ⟨[120, 0], 2⟩ = false ∧
      basic_char_view.find_view ⟨[120, 121], 2⟩ ⟨[120, 0], 2⟩ = 0 ∧
      basic_char_view.find_view ⟨[120, 121], 2⟩ ⟨[120, 0], 2⟩ ≠ npos := by
  refine ⟨by decide, by decide, by decide⟩

/-- C4 (amended): for every view of `size_t`-representable size and every
needle — given as an explicit `(pointer, length)` buffer or as a view — whose
code units within its length are non-NUL, `contains` is `true` exactly when
`find` is not `npos`. -/
theorem contains_find_coherent_nul_free (v : basic_char_view) (s : List ℕ) (a_len : ℕ)
    (hsize : v.m_size < 2 ^ 64)
    (hs : ∀ i, i < a_len → cread s i ≠ 0) :
    (v.contains_cn s a_len = true ↔ v.find_cn s a_len ≠ npos) ∧
      (v.contains_view ⟨s, a_len⟩ = true ↔ v.find_view ⟨s, a_len⟩ ≠ npos) := by
  have core : details.contains v.m_str s v.m_size a_len = true ↔
      size_t_of_int (details.index_of v.m_str s v.m_size a_len 0) ≠ npos := by
    by_cases hlen : a_len = 0
    · subst hlen
      rw [contains_empty_needle, index_of_empty_needle]
      have : size_t_of_int ((0 : ℕ) : ℤ) = 0 := by decide
      rw [this]
      simp [npos]
    · rw [contains_iff_index_of_aux v.m_size v.m_str s a_len 0 hs]
      rcases index_of_bound v.m_size v.m_str s a_len 0 with h | ⟨h1, h2⟩
      · rw [h, show size_t_of_int (-1) = npos from by decide]
        simp
      · have h0 : (0 : ℤ) ≤ details.index_of v.m_str s v.m_size a_len 0 := by
          push_cast at h1
          omega
        have hlt : details.index_of v.m_str s v.m_size a_len 0 < 2 ^ 64 - 1 := by
          push_cast at h2
          omega
        have hmod : size_t_of_int (details.index_of v.m_str s v.m_size a_len 0) =
            (details.index_of v.m_str s v.m_size a_len 0).toNat := by
          unfold size_t_of_int
          rw [Int.emod_eq_of_lt h0 (by omega)]
        rw [hmod]
        unfold npos
        constructor
        · intro _
          omega
        · intro _
          omega
  exact ⟨core, core⟩

/-- Witness for C4 (amended) at the view `"ab"` and the NUL-free needle
`("b", 1)`. -/
theorem contains_find_coherent_nul_free_witness :
    (basic_char_view.contains_cn ⟨[97, 98], 2⟩ [98] 1 = true ↔
        basic_char_view.find_cn ⟨[97, 98], 2⟩ [98] 1 ≠ npos) ∧
      (basic_char_view.contains_view ⟨[97, 98], 2⟩ ⟨[98], 1⟩ = true ↔
        basic_char_view.find_view ⟨[97, 98], 2⟩ ⟨[98], 1⟩ ≠ npos) :=
  contains_find_coherent_nul_free ⟨[97, 98], 2⟩ [98] 1 (by decide) (by decide)

/-- `rfind_cn(const charT*, size_t)` under `RecursivePolicyEnabled`:
`details::last_index_of(m_str, a_str, m_size, a_len)`, converted to `size_t`. -/
def basic_char_view.rfind_cn (v : basic_char_view) (a_str : List ℕ) (a_len : ℕ) : ℕ :=
  size_t_of_int (details.last_index_of v.m_str a_str v.m_size a_len 0 (-1))

/-- `find_first_of_cn(const charT*, size_t)` under `RecursivePolicyEnabled`:
`details::index_of_any(m_str, a_str, m_size, a_len)`, converted to `size_t`. -/
def basic_char_view.find_first_of_cn (v : basic_char_view) (a_str : List ℕ) (a_len : ℕ) : ℕ :=
  size_t_of_int (details.index_of_any v.m_str a_str v.m_size a_len 0)

/-- `find_first_not_of_cn(const charT*, size_t)` under `RecursivePolicyEnabled`:
`details::index_of_nonmatching(m_str, a_str, m_size, a_len)`, converted to
`size_t`. -/
def basic_char_view.find_first_not_of_cn (v : basic_char_view) (a_str : List ℕ)
    (a_len : ℕ) : ℕ :=
  size_t_of_int (details.index_of_nonmatching v.m_str a_str v.m_size a_len 0)

/-- `find_last_of_cn(const charT*, size_t)` under `RecursivePolicyEnabled`:
`details::last_index_of_any(m_str, a_str, m_size, a_len)`, converted to
`size_t`. -/
def basic_char_view.find_last_of_cn (v : basic_char_view) (a_str : List ℕ) (a_len : ℕ) : ℕ :=
  size_t_of_int (details.last_index_of_any v.m_str a_str v.m_size a_len 0 (-1))

/-- `find_last_not_of_cn(const charT*, size_t)` under `RecursivePolicyEnabled`:
`details::last_index_of_nonmatching(m_str, a_str, m_size, a_len)`, converted
to `size_t`. -/
def basic_char_view.find_last_not_of_cn (v : basic_char_view) (a_str : List ℕ)
    (a_len : ℕ) : ℕ :=
  size_t_of_int (details.last_index_of_nonmatching v.m_str a_str v.m_size a_len 0 (-1))

lemma last_index_of_bound :
    ∀ (cl : ℕ) (c s : List ℕ) (sl off : ℕ) (fp : ℤ),
      (fp = -1 ∨ (0 ≤ fp ∧ fp ≤ (off : ℤ) + (cl : ℤ))) →
      (details.last_index_of c s cl sl off fp = -1 ∨
        (0 ≤ details.last_index_of c s cl sl off fp ∧
          details.last_index_of c s cl sl off fp ≤ (off : ℤ) + (cl : ℤ))) := by
  intro cl
  induction cl with
  | zero =>
      intro c s sl off fp hfp
      simp only [details.last_index_of]
      by_cases h : sl = 0
      · rw [if_pos h]
        exact Or.inr ⟨by omega, by push_cast; omega⟩
      · rw [if_neg h]
        rcases hfp with h1 | ⟨h1, h2⟩
        · exact Or.inl h1
        · exact Or.inr ⟨h1, by push_cast at h2 ⊢; omega⟩
  | succ n ih =>
      intro c s sl off fp hfp
      simp only [details.last_index_of]
      by_cases hguard : n + 1 < sl
      · rw [if_pos hguard]
        rcases hfp with h1 | ⟨h1, h2⟩
        · exact Or.inl h1
        · exact Or.inr ⟨h1, by push_cast at h2 ⊢; omega⟩
      · rw [if_neg hguard]
        by_cases hm : details.compare c s sl (sl : ℤ) = 0
        · rw [if_pos hm]
          rcases ih (c.drop 1) s sl (off + 1) (off : ℤ)
              (Or.inr ⟨by omega, by push_cast; omega⟩) with h | ⟨h1, h2⟩
          · exact Or.inl h
          · exact Or.inr ⟨h1, by push_cast at h2 ⊢; omega⟩
        · rw [if_neg hm]
          rcases ih (c.drop 1) s sl (off + 1) fp
              (by rcases hfp with h1 | ⟨h1, h2⟩
                  · exact Or.inl h1
                  · exact Or.inr ⟨h1, by push_cast at h2 ⊢; omega⟩) with h | ⟨h1, h2⟩
          · exact Or.inl h
          · exact Or.inr ⟨h1, by push_cast at h2 ⊢; omega⟩

lemma index_of_any_bound :
    ∀ (cl : ℕ) (c s : List ℕ) (sl off : ℕ),
      details.index_of_any c s cl sl off = -1 ∨
        (0 ≤ details.index_of_any c s cl sl off ∧
          details.index_of_any c s cl sl off ≤ (off : ℤ) + (cl : ℤ)) := by
  intro cl
  induction cl with
  | zero =>
      intro c s sl off
      exact Or.inl rfl
  | succ n ih =>
      intro c s sl off
      simp only [details.index_of_any]
      by_cases hsl : sl = 0
      · rw [if_pos hsl]
        exact Or.inl rfl
      · rw [if_neg hsl]
        by_cases hf : 0 ≤ details.index_of s c sl 1 0
        · rw [if_pos hf]
          exact Or.inr ⟨by omega, by push_cast; omega⟩
        · rw [if_neg hf]
          rcases ih (c.drop 1) s sl (off + 1) with h | ⟨h1, h2⟩
          · exact Or.inl h
          · exact Or.inr ⟨h1, by push_cast at h2 ⊢; omega⟩

lemma index_of_nonmatching_bound :
    ∀ (cl : ℕ) (c s : List ℕ) (sl off : ℕ),
      details.index_of_nonmatching c s cl sl off = -1 ∨
        (0 ≤ details.index_of_nonmatching c s cl sl off ∧
          details.index_of_nonmatching c s cl sl off ≤ (off : ℤ) + (cl : ℤ)) := by
  intro cl
  induction cl with
  | zero =>
      intro c s sl off
      simp only [details.index_of_nonmatching]
      by_cases h : sl = 0
      · rw [if_pos h]
        exact Or.inr ⟨by omega, by push_cast; omega⟩
      · rw [if_neg h]
        exact Or.inl rfl
  | succ n ih =>
      intro c s sl off
      simp only [details.index_of_nonmatching]
      by_cases hf : details.index_of s c sl 1 0 < 0
      · rw [if_pos hf]
        exact Or.inr ⟨by omega, by push_cast; omega⟩
      · rw [if_neg hf]
        rcases ih (c.drop 1) s sl (off + 1) with h | ⟨h1, h2⟩
        · exact Or.inl h
        · exact Or.inr ⟨h1, by push_cast at h2 ⊢; omega⟩

lemma last_index_of_any_bound :
    ∀ (cl : ℕ) (c s : List ℕ) (sl off : ℕ) (fp : ℤ),
      (fp = -1 ∨ (0 ≤ fp ∧ fp ≤ (off : ℤ) + (cl : ℤ))) →
      (details.last_index_of_any c s cl sl off fp = -1 ∨
        (0 ≤ details.last_index_of_any c s cl sl off fp ∧
          details.last_index_of_any c s cl sl off fp ≤ (off : ℤ) + (cl : ℤ))) := by
  intro cl
  induction cl with
  | zero =>
      intro c s sl off fp hfp
      simp only [details.last_index_of_any]
      by_cases h : sl = 0
      · rw [if_pos h]
        exact Or.inl rfl
      · rw [if_neg h]
        rcases hfp with h1 | ⟨h1, h2⟩
        · exact Or.inl h1
        · exact Or.inr ⟨h1, by push_cast at h2 ⊢; omega⟩
  | succ n ih =>
      intro c s sl off fp hfp
      simp only [details.last_index_of_any]
      by_cases hf : 0 ≤ details.index_of s c sl 1 0
      · rw [if_pos hf]
        rcases ih (c.drop 1) s sl (off + 1) (off : ℤ)
            (Or.inr ⟨by omega, by push_cast; omega⟩) with h | ⟨h1, h2⟩
        · exact Or.inl h
        · exact Or.inr ⟨h1, by push_cast at h2 ⊢; omega⟩
      · rw [if_neg hf]
        rcases ih (c.drop 1) s sl (off + 1) fp
            (by rcases hfp with h1 | ⟨h1, h2⟩
                · exact Or.inl h1
                · exact Or.inr ⟨h1, by push_cast at h2 ⊢; omega⟩) with h | ⟨h1, h2⟩
        · exact Or.inl h
        · exact Or.inr ⟨h1, by push_cast at h2 ⊢; omega⟩

lemma last_index_of_nonmatching_bound :
    ∀ (cl : ℕ) (c s : List ℕ) (sl off : ℕ) (fp : ℤ),
      (fp = -1 ∨ (0 ≤ fp ∧ fp ≤ (off : ℤ) + (cl : ℤ))) →
      (details.last_index_of_nonmatching c s cl sl off fp = -1 ∨
        (0 ≤ details.last_index_of_nonmatching c s cl sl off fp ∧
          details.last_index_of_nonmatching c s cl sl off fp ≤ (off : ℤ) + (cl : ℤ))) := by
  intro cl
  induction cl with
  | zero =>
      intro c s sl off fp hfp
      simp only [details.last_index_of_nonmatching]
      by_cases h : sl = 0
      · rw [if_pos h]
        exact Or.inr ⟨by omega, by push_cast; omega⟩
      · rw [if_neg h]
        rcases hfp with h1 | ⟨h1, h2⟩
        · exact Or.inl h1
        · exact Or.inr ⟨h1, by push_cast at h2 ⊢; omega⟩
  | succ n ih =>
      intro c s sl off fp hfp
      simp only [details.last_index_of_nonmatching]
      by_cases hf : details.index_of s c sl 1 0 < 0
      · rw [if_pos hf]
        rcases ih (c.drop 1) s sl (off + 1) (off : ℤ)
            (Or.inr ⟨by omega, by push_cast; omega⟩) with h | ⟨h1, h2⟩
        · exact Or.inl h
        · exact Or.inr ⟨h1, by push_cast at h2 ⊢; omega⟩
      · rw [if_neg hf]
        rcases ih (c.drop 1) s sl (off + 1) fp
            (by rcases hfp with h1 | ⟨h1, h2⟩
                · exact Or.inl h1
                · exact Or.inr ⟨h1, by push_cast at h2 ⊢; omega⟩) with h | ⟨h1, h2⟩
        · exact Or.inl h
        · exact Or.inr ⟨h1, by push_cast at h2 ⊢; omega⟩

lemma size_t_of_int_bound (r : ℤ) (M : ℕ)
    (h : r = -1 ∨ (0 ≤ r ∧ r ≤ (M : ℤ))) :
    size_t_of_int r = npos ∨ size_t_of_int r ≤ M := by
  rcases h with h | ⟨h1, h2⟩
  · subst h
    left
    decide
  · right
    unfold size_t_of_int
    omega

/-- C9 counterexample: `rfind` of the empty needle on the view `"Ab"` (size 2)
returns 2: a non-sentinel result that is not strictly less than `s.size()`
(the source's `last_index_of` yields `content_limit` for an empty needle). -/
theorem search_result_bound_counterexample :
    basic_char_view.rfind_cn ⟨[65, 98], 2⟩ [] 0 = 2 ∧
      basic_char_view.rfind_cn ⟨[65, 98], 2⟩ [] 0 ≠ npos ∧
      ¬ (basic_char_view.rfind_cn ⟨[65, 98], 2⟩ [] 0 < 2) := by
  refine ⟨by decide, by decide, by decide⟩

/-- C9 (amended): every result of the six search operations — `find`,
`rfind`, `find_first_of`, `find_first_not_of`, `find_last_of`,
`find_last_not_of` — is either the sentinel `npos` or at most `s.size()`
(`s.size()` itself occurs, e.g. for `rfind` with an empty needle).  Stated
for the explicit `(pointer, length)` call shape, which the zero-terminated,
view and `std::string` shapes all reduce to (they pass the same buffer with
a computed length to the same `details::` scanner). -/
theorem search_results_le_size (v : basic_char_view) (a_str : List ℕ) (a_len : ℕ) :
    (v.find_cn a_str a_len = npos ∨ v.find_cn a_str a_len ≤ v.m_size) ∧
      (v.rfind_cn a_str a_len = npos ∨ v.rfind_cn a_str a_len ≤ v.m_size) ∧
      (v.find_first_of_cn a_str a_len = npos ∨ v.find_first_of_cn a_str a_len ≤ v.m_size) ∧
      (v.find_first_not_of_cn a_str a_len = npos ∨
        v.find_first_not_of_cn a_str a_len ≤ v.m_size) ∧
      (v.find_last_of_cn a_str a_len = npos ∨ v.find_last_of_cn a_str a_len ≤ v.m_size) ∧
      (v.find_last_not_of_cn a_str a_len = npos ∨
        v.find_last_not_of_cn a_str a_len ≤ v.m_size) := by
  refine ⟨?_, ?_, ?_, ?_, ?_, ?_⟩
  · simp only [basic_char_view.find_cn]
    refine size_t_of_int_bound _ _ ?_
    rcases index_of_bound v.m_size v.m_str a_str a_len 0 with h | ⟨h1, h2⟩
    · exact Or.inl h
    · exact Or.inr ⟨by push_cast at h1; omega, by push_cast at h2 ⊢; omega⟩
  · simp only [basic_char_view.rfind_cn]
    refine size_t_of_int_bound _ _ ?_
    rcases last_index_of_bound v.m_size v.m_str a_str a_len 0 (-1) (Or.inl rfl)
      with h | ⟨h1, h2⟩
    · exact Or.inl h
    · exact Or.inr ⟨h1, by push_cast at h2 ⊢; omega⟩
  · simp only [basic_char_view.find_first_of_cn]
    refine size_t_of_int_bound _ _ ?_
    rcases index_of_any_bound v.m_size v.m_str a_str a_len 0 with h | ⟨h1, h2⟩
    · exact Or.inl h
    · exact Or.inr ⟨h1, by push_cast at h2 ⊢; omega⟩
  · simp only [basic_char_view.find_first_not_of_cn]
    refine size_t_of_int_bound _ _ ?_
    rcases index_of_nonmatching_bound v.m_size v.m_str a_str a_len 0 with h | ⟨h1, h2⟩
    · exact Or.inl h
    · exact Or.inr ⟨h1, by push_cast at h2 ⊢; omega⟩
  · simp only [basic_char_view.find_last_of_cn]
    refine size_t_of_int_bound _ _ ?_
    rcases last_index_of_any_bound v.m_size v.m_str a_str a_len 0 (-1) (Or.inl rfl)
      with h | ⟨h1, h2⟩
    · exact Or.inl h
    · exact Or.inr ⟨h1, by push_cast at h2 ⊢; omega⟩
  · simp only [basic_char_view.find_last_not_of_cn]
    refine size_t_of_int_bound _ _ ?_
    rcases last_index_of_nonmatching_bound v.m_size v.m_str a_str a_len 0 (-1) (Or.inl rfl)
      with h | ⟨h1, h2⟩
    · exact Or.inl h
    · exact Or.inr ⟨h1, by push_cast at h2 ⊢; omega⟩

/-- The whitespace set used by `trim`: `" \t\n\r\v\f"` (the C `isspace`
characters). -/
def whitespace : List ℕ := [32, 9, 10, 13, 11, 12]

/-- Modelled from the spec: `trim` belongs to the specified view type but is
missing from src/include/char_view.h — only src/test/testMain.cpp calls it.
Per spec §2 ("builds on index-of-not-any to strip leading/trailing
whitespace, producing a sub-view") and §4.2, the result is the sub-view
bounded by the first and the last code unit not in the whitespace set
(sharing the same backing store), and an all-whitespace or empty input
yields a zero-length view. -/
def basic_char_view.trim (v : basic_char_view) : basic_char_view :=
  let f := details.index_of_nonmatching v.m_str whitespace v.m_size whitespace.length 0
  let l := details.last_index_of_nonmatching v.m_str whitespace v.m_size whitespace.length
    0 (-1)
  if f < 0 then ⟨[], 0⟩
  else ⟨v.m_str.drop f.toNat, (l - f + 1).toNat⟩

lemma index_of_ws_nonneg (content : List ℕ) (h : cread content 0 ∈ whitespace) :
    0 ≤ details.index_of whitespace content whitespace.length 1 0 := by
  cases content with
  | nil =>
      rw [cread_nil] at h
      exact absurd h (by decide)
  | cons c t =>
      rw [cread_cons_zero] at h
      simp only [whitespace, List.mem_cons, List.not_mem_nil, or_false] at h
      rcases h with h | h | h | h | h | h <;> subst h <;> exact of_decide_eq_true rfl

lemma index_of_nonmatching_all_ws :
    ∀ (cl : ℕ) (c : List ℕ) (off : ℕ),
      (∀ i, i < cl → cread c i ∈ whitespace) →
      details.index_of_nonmatching c whitespace cl whitespace.length off = -1 := by
  intro cl
  induction cl with
  | zero =>
      intro c off _
      have hlen : whitespace.length ≠ 0 := by decide
      simp [details.index_of_nonmatching, hlen]
  | succ n ih =>
      intro c off h
      have h0 : 0 ≤ details.index_of whitespace c whitespace.length 1 0 :=
        index_of_ws_nonneg c (h 0 (Nat.succ_pos n))
      rw [show details.index_of_nonmatching c whitespace (n + 1) whitespace.length off =
            details.index_of_nonmatching (c.drop 1) whitespace n whitespace.length
              (off + 1) from by
          simp only [details.index_of_nonmatching, if_neg (not_lt.mpr h0)]]
      exact ih (c.drop 1) (off + 1)
        (fun i hi => by rw [cread_drop_one]; exact h (i + 1) (by omega))

/-- C6: the (spec-modelled) `trim` satisfies the claim:
`"  \t test1  \t ".trim()` is the sub-view `"test1"` of length 5 sharing the
same backing store (the result's buffer is the original buffer advanced to
the first non-whitespace code unit), the spec's all-whitespace examples
`"  \t\t "` and `" "` trim to zero-length views, the empty view trims to a
zero-length view, and in general every view all of whose code units are
whitespace trims to a zero-length view. -/
theorem trim_spec_examples :
    (basic_char_view.trim ⟨[32, 32, 9, 32, 116, 101, 115, 116, 49, 32, 32, 9, 32], 13⟩
        = ⟨[116, 101, 115, 116, 49, 32, 32, 9, 32], 5⟩ ∧
      basic_char_view.trim ⟨[32, 32, 9, 9, 32], 5⟩ = ⟨[], 0⟩ ∧
      basic_char_view.trim ⟨[32], 1⟩ = ⟨[], 0⟩ ∧
      basic_char_view.trim ⟨[], 0⟩ = ⟨[], 0⟩) ∧
    ∀ (v : basic_char_view),
      (∀ i, i < v.m_size → cread v.m_str i ∈ whitespace) → (v.trim).m_size = 0 := by
  constructor
  · refine ⟨by decide, by decide, by decide, by decide⟩
  · intro v hv
    have hf := index_of_nonmatching_all_ws v.m_size v.m_str 0 hv
    simp only [basic_char_view.trim, hf]
    norm_num

/-- Witness for the all-whitespace clause of C6 at the view `" "`. -/
theorem trim_spec_examples_witness :
    (basic_char_view.trim ⟨[32], 1⟩).m_size = 0 :=
  trim_spec_examples.2 ⟨[32], 1⟩ (by decide)

end sbt
